import Mathlib

/-!
# Verification of the SpeakerStream merge-and-segment engine

Shallow embedding of `src/speech-to-text/speaker-stream.js` (the
`SpeakerStream` object-mode transform stream) and proofs of the spec's
claims about it.

Modelling conventions:

* A word timestamp is stored by the source as a positional array
  `[word, from, to]` (indices `WORD = 0`, `FROM = 1`, `TO = 2`); we model
  it as a record with those three fields.
* The floating-point times are only ever compared (`===`, `!==`, `<`) and
  never combined arithmetically, so we model them as rationals, which have
  the same decidable order and equality behaviour on all non-NaN inputs.
* The accumulator state is the pair of instance fields `this.timestamps`
  and `this.speaker_labels`.
* Event emission (`this.emit('error', err)`, `this.push(...)`) is modelled
  by returning the emitted values: each round produces at most one error
  and at most one pushed result, which the source code guarantees through
  its `errored` flag and single `push` call.
-/

/-- One word timestamp: the source's `[word, from, to]` sub-array of
`this.timestamps` (positions `WORD = 0`, `FROM = 1`, `TO = 2`). -/
structure WordTimestamp where
  word : String
  «from» : ℚ
  «to» : ℚ
  deriving DecidableEq, Repr

/-- One speaker label object from a `speaker_labels` array. -/
structure SpeakerLabel where
  «from» : ℚ
  «to» : ℚ
  speaker : ℤ
  confidence : ℚ
  final : Bool
  deriving DecidableEq, Repr

/-- The accumulator state of a `SpeakerStream` instance: the
`this.timestamps` and `this.speaker_labels` fields. -/
structure SpeakerState where
  timestamps : List WordTimestamp
  speaker_labels : List SpeakerLabel
  deriving DecidableEq, Repr

namespace SpeakerStream

/-- `SpeakerStream.prototype.isFinal`: the source returns
`this.speaker_labels.length && this.speaker_labels[last].final`, which is
truthy exactly when the collection is non-empty and its last entry has
`final == true`. -/
def isFinal (s : SpeakerState) : Bool :=
  match s.speaker_labels.getLast? with
  | none => false
  | some l => l.final

/-- `SpeakerStream.speakerLabelsSorter`: the comparator passed to
`Array.prototype.sort`; primary key `from` ascending, secondary key `to`
ascending, ties compare equal. -/
def speakerLabelsSorter (a b : SpeakerLabel) : ℤ :=
  if a.«from» = b.«from» then
    if a.«to» = b.«to» then 0
    else if a.«to» < b.«to» then -1 else 1
  else if a.«from» < b.«from» then -1 else 1

/-- The "comes no later than" relation induced by `speakerLabelsSorter`:
`a` sorts at or before `b` when the comparator does not return `1`.
`Array.prototype.sort` (stable per the ECMAScript spec) with this
comparator computes exactly the stable sort by this relation, which we
realise with `List.insertionSort` (a stable sort). -/
def labelLE (a b : SpeakerLabel) : Prop := speakerLabelsSorter a b ≤ 0

instance : DecidableRel labelLE := fun a b =>
  inferInstanceAs (Decidable (speakerLabelsSorter a b ≤ 0))

/-- The order-theoretic reading of `labelLE`: lexicographic "less than or
equal" on the `(from, to)` key.  (A definition of a proof, kept with the
definitions because the order instances below are built from it.) -/
def labelLE_key (a b : SpeakerLabel) :
    labelLE a b ↔ a.«from» < b.«from» ∨ (a.«from» = b.«from» ∧ a.«to» ≤ b.«to») := by
  unfold labelLE speakerLabelsSorter
  split_ifs with h1 h2 h3 h4
  · exact iff_of_true (by norm_num) (Or.inr ⟨h1, le_of_eq h2⟩)
  · exact iff_of_true (by norm_num) (Or.inr ⟨h1, le_of_lt h3⟩)
  · refine iff_of_false (by norm_num) ?_
    rintro (h | ⟨-, h⟩)
    · exact absurd h (by rw [h1]; exact lt_irrefl _)
    · exact h3 (lt_of_le_of_ne h h2)
  · exact iff_of_true (by norm_num) (Or.inl h4)
  · refine iff_of_false (by norm_num) ?_
    rintro (h | ⟨h, -⟩)
    · exact h4 h
    · exact h1 h

instance : IsTotal SpeakerLabel labelLE := by
  constructor
  intro a b
  rw [labelLE_key, labelLE_key]
  rcases lt_trichotomy a.«from» b.«from» with h | h | h
  · exact Or.inl (Or.inl h)
  · rcases le_total a.«to» b.«to» with h2 | h2
    · exact Or.inl (Or.inr ⟨h, h2⟩)
    · exact Or.inr (Or.inr ⟨h.symm, h2⟩)
  · exact Or.inr (Or.inl h)

instance : IsTrans SpeakerLabel labelLE := by
  constructor
  intro a b c hab hbc
  rw [labelLE_key] at hab hbc ⊢
  rcases hab with h1 | ⟨h1, h1'⟩ <;> rcases hbc with h2 | ⟨h2, h2'⟩
  · exact Or.inl (h1.trans h2)
  · exact Or.inl (h2 ▸ h1)
  · exact Or.inl (h1 ▸ h2)
  · exact Or.inr ⟨h1.trans h2, h1'.trans h2'⟩

/-- The span-equality test used by `handleSpeakerLabels`'s call to
`pullAllWith`: `old.from === nw.from && old.to === nw.to`. -/
def sameSpan (old nw : SpeakerLabel) : Bool :=
  old.«from» = nw.«from» ∧ old.«to» = nw.«to»

/-- The label-collection update performed by
`SpeakerStream.prototype.handleSpeakerLabels` on `this.speaker_labels`:
`pullAllWith` removes every existing label whose `(from, to)` span equals
the span of some new label, the new labels are appended, and the whole
collection is re-sorted (stably) by `speakerLabelsSorter`. -/
def mergeLabelList (old nw : List SpeakerLabel) : List SpeakerLabel :=
  List.insertionSort labelLE
    ((old.filter fun o => ¬ nw.any (sameSpan o)) ++ nw)

/-- `SpeakerStream.prototype.handleSpeakerLabels` as a state update. -/
def handleSpeakerLabels (s : SpeakerState) (nw : List SpeakerLabel) : SpeakerState :=
  { s with speaker_labels := mergeLabelList s.speaker_labels nw }

/-- The outcome of `SpeakerStream.prototype._flush`: either no error, or a
MISMATCH error with the "No speaker_labels found" message, or a MISMATCH
error whose message reports both counts.  Both error forms also carry the
attached `speaker_labels` and `timestamps` fields set by the source. -/
inductive FlushOutcome where
  | ok : FlushOutcome
  | errNoLabels (speaker_labels : List SpeakerLabel)
      (timestamps : List WordTimestamp) : FlushOutcome
  | errCounts (nTimestamps nLabels : ℕ)
      (speaker_labels : List SpeakerLabel)
      (timestamps : List WordTimestamp) : FlushOutcome
  deriving DecidableEq, Repr

/-- `SpeakerStream.prototype._flush`: compares the two collection lengths
and picks the error message; `this.timestamps.length &&
!this.speaker_labels.length` selects the "No speaker_labels found"
message, any other imbalance selects the message reporting both counts. -/
def flush (s : SpeakerState) : FlushOutcome :=
  if s.timestamps.length ≠ s.speaker_labels.length then
    if s.timestamps.length ≠ 0 ∧ s.speaker_labels.length = 0 then
      .errNoLabels s.speaker_labels s.timestamps
    else
      .errCounts s.timestamps.length s.speaker_labels.length
        s.speaker_labels s.timestamps
  else .ok

/-- One entry of an emitted result's `alternatives` array. -/
structure Alternative where
  transcript : String
  timestamps : List WordTimestamp
  deriving DecidableEq, Repr

/-- One entry of the emitted `results` array: a single "line" from a
particular speaker. -/
structure SpeakerResult where
  speaker : ℤ
  alternatives : List Alternative
  final : Bool
  deriving DecidableEq, Repr

/-- The object pushed by `process`: `{results: results, result_index: 0}`. -/
structure SegmentedResult where
  results : List SpeakerResult
  result_index : ℕ
  deriving DecidableEq, Repr

/-- The MISMATCH error built inside `process` (and its fields set by the
source: the offending label, the possibly-absent timestamp at the same
index, and the two collections attached as `err.speaker_labels` and
`err.timestamps`). -/
structure MismatchError where
  speaker_label : SpeakerLabel
  timestamp : Option WordTimestamp
  speaker_labels : List SpeakerLabel
  timestamps : List WordTimestamp
  deriving DecidableEq, Repr

/-- The body of the `map` callback in `process` for index `i` and label
`label`: `null` (here `none`) when the timestamp at `i` is absent or its
`from`/`to` differ from the label's, otherwise the `[timestamp, label]`
pair. -/
def pairAt (ts : List WordTimestamp) (i : ℕ) (label : SpeakerLabel) :
    Option (WordTimestamp × SpeakerLabel) :=
  match ts[i]? with
  | none => none
  | some t =>
    if t.«from» = label.«from» ∧ t.«to» = label.«to» then some (t, label) else none

/-- The error payload emitted at index `i` when the mismatch test of
`process` fires there: the offending label together with
`this.timestamps[i]` (possibly absent). -/
def mismatchErrAt (ts : List WordTimestamp) (i : ℕ) (label : SpeakerLabel) :
    Option (SpeakerLabel × Option WordTimestamp) :=
  if (pairAt ts i label).isNone then some (label, ts[i]?) else none

/-- The single error emitted by the `map` pass of `process`: the source's
`errored` flag makes only the first mismatching index emit, so the round's
error is determined by the first index whose mismatch test fires. -/
def firstMismatch (s : SpeakerState) : Option (SpeakerLabel × Option WordTimestamp) :=
  s.speaker_labels.enum.findSome? fun p => mismatchErrAt s.timestamps p.1 p.2

/-- The `pairs` array built by the `map` in `process` (with `null`
modelled as `none`). -/
def pairsList (s : SpeakerState) : List (Option (WordTimestamp × SpeakerLabel)) :=
  s.speaker_labels.enum.map fun p => pairAt s.timestamps p.1 p.2

/-- The pair sequence `process` reduces over in a round with no mismatch
(in such a round no entry of `pairs` is `null`). -/
def goodPairs (s : SpeakerState) : List (WordTimestamp × SpeakerLabel) :=
  (pairsList s).filterMap id

/-- The fresh result started by the reduce step in `process` when the
speaker changes (or no result is in progress yet). -/
def newResult (final : Bool) (pair : WordTimestamp × SpeakerLabel) : SpeakerResult :=
  { speaker := pair.2.speaker
    alternatives := [{ transcript := pair.1.word ++ " ", timestamps := [pair.1] }]
    final := final }

/-- The in-place update `currentResult.alternatives[0].transcript +=
pair[0][WORD] + ' '; currentResult.alternatives[0].timestamps.push(pair[0])`
performed by the reduce step on the in-progress result. -/
def appendWord (r : SpeakerResult) (t : WordTimestamp) : SpeakerResult :=
  match r.alternatives with
  | [] => r
  | alt :: rest =>
    { r with alternatives :=
        { transcript := alt.transcript ++ (t.word ++ " ")
          timestamps := alt.timestamps ++ [t] } :: rest }

/-- One step of the `reduce` in `process`: `currentResult` is the last
entry of the accumulator `arr`; a new result is pushed when there is none
or its speaker differs from the pair's, otherwise the word is appended to
it. -/
def groupStep (final : Bool) (arr : List SpeakerResult)
    (pair : WordTimestamp × SpeakerLabel) : List SpeakerResult :=
  match arr.getLast? with
  | none => arr ++ [newResult final pair]
  | some currentResult =>
    if currentResult.speaker ≠ pair.2.speaker then arr ++ [newResult final pair]
    else arr.dropLast ++ [appendWord currentResult pair.1]

/-- The `results` array built by the `reduce` in `process`. -/
def buildResults (final : Bool) (pairs : List (WordTimestamp × SpeakerLabel)) :
    List SpeakerResult :=
  pairs.foldl (groupStep final) []

/-- `SpeakerStream.prototype.process`.  The source never assigns to
`this.timestamps` or `this.speaker_labels` inside `process` (it only reads
them), so the state component of the return value is the input state; the
other two components are the values emitted through `emit('error', ...)`
and `push(...)` in that round. -/
def process (s : SpeakerState) :
    SpeakerState × Option MismatchError × Option SegmentedResult :=
  match firstMismatch s with
  | some (label, t) =>
    (s, some { speaker_label := label, timestamp := t
               speaker_labels := s.speaker_labels, timestamps := s.timestamps },
     none)
  | none =>
    let results := buildResults (isFinal s) (goodPairs s)
    (s, none,
     if results.length ≠ 0 then some { results := results, result_index := 0 }
     else none)

/-- One entry of an incoming `results` array. -/
structure ResultEntry where
  final : Bool
  alternatives : List Alternative
  deriving DecidableEq, Repr

/-- An incoming update object: it optionally carries a `results` array
and/or a `speaker_labels` array (`_transform` tests each with
`Array.isArray`). -/
structure InputData where
  results : Option (List ResultEntry)
  speaker_labels : Option (List SpeakerLabel)
  deriving DecidableEq, Repr

/-- `result.alternatives[0].timestamps` as read by `handleResults`; the
source indexes `alternatives[0]` unconditionally (an empty `alternatives`
array would crash it, a path no claim exercises). -/
def entryTimestamps (r : ResultEntry) : List WordTimestamp :=
  match r.alternatives with
  | [] => []
  | alt :: _ => alt.timestamps

/-- The error signaled by `handleResults` when the precondition checker
reports missing timestamps: the source sets `err.name =
noTimestamps.ERROR_NO_TIMESTAMPS` with the message "SpeakerStream requires
that timestamps and speaker_labels be enabled" (the spec's CONFIGURATION
error). -/
inductive ConfigError where
  | noTimestampsError : ConfigError
  deriving DecidableEq, Repr

/-- `SpeakerStream.prototype.handleResults`.  The precondition checker
`noTimestamps` is required from `./no-timestamps`, a module that is not
among the sources.  Modelled from the spec: "Collaborator contract —
precondition checker: a pure function taking an input event and returning
whether it is missing required timestamp/speaker-label capability"; it is
therefore passed in as the Boolean-valued parameter `noTs`.  When it
reports a missing capability, `handleResults` emits the error and returns
without touching the state; otherwise the timestamps of the final results
are concatenated (in order) onto `this.timestamps`. -/
def handleResults (noTs : InputData → Bool) (s : SpeakerState) (data : InputData) :
    SpeakerState × Option ConfigError :=
  if noTs data then (s, some .noTimestampsError)
  else
    ({ s with timestamps :=
        s.timestamps ++
          (((data.results.getD []).filter fun r => r.final).map entryTimestamps).flatten },
     none)

/-- `SpeakerStream.prototype._transform`: dispatches to `handleResults`
when the update carries a `results` array and to `handleSpeakerLabels`
when it carries a `speaker_labels` array, then always runs `process`.
Returns the resulting state plus everything emitted during the call. -/
def transform (noTs : InputData → Bool) (s : SpeakerState) (data : InputData) :
    SpeakerState × Option ConfigError × Option MismatchError × Option SegmentedResult :=
  let step1 :=
    match data.results with
    | some _ => handleResults noTs s data
    | none => (s, none)
  let s2 :=
    match data.speaker_labels with
    | some nw => handleSpeakerLabels step1.1 nw
    | none => step1.1
  let p := process s2
  (p.1, step1.2, p.2.1, p.2.2)

/-- A maximal same-speaker run of consecutive pairs, kept non-empty by
construction: head pair plus the rest of the run. -/
abbrev Run := (WordTimestamp × SpeakerLabel) × List (WordTimestamp × SpeakerLabel)

/-- The pairs of a run, in order. -/
def runPairs (c : Run) : List (WordTimestamp × SpeakerLabel) := c.1 :: c.2

/-- Splits a pair list into maximal runs of one unchanging speaker,
carrying the run in progress; a pair extends the current run exactly when
its speaker equals the run's speaker. -/
def chunkAux (cur : Run) : List (WordTimestamp × SpeakerLabel) → List Run
  | [] => [cur]
  | p :: ps =>
    if p.2.speaker = cur.1.2.speaker then chunkAux (cur.1, cur.2 ++ [p]) ps
    else cur :: chunkAux (p, []) ps

/-- The maximal same-speaker runs of a pair list, in order.  This is the
spec-side description of the grouping ("start a new Segment whenever the
pair's speaker differs from the speaker of the in-progress segment"),
stated independently of the source's reduce for comparison with
`buildResults`. -/
def chunkBySpeaker : List (WordTimestamp × SpeakerLabel) → List Run
  | [] => []
  | p :: ps => chunkAux (p, []) ps

/-- The segment a run should yield according to the spec's words: the
run's speaker, the words joined each with a single trailing space, and the
run's timestamps in order, stamped with the round's final flag. -/
def runResult (final : Bool) (c : Run) : SpeakerResult :=
  { speaker := c.1.2.speaker
    alternatives :=
      [{ transcript := String.join ((runPairs c).map fun p => p.1.word ++ " ")
         timestamps := (runPairs c).map Prod.fst }]
    final := final }

/-- The label collections reachable from the initial empty
`this.speaker_labels` by a sequence of `handleSpeakerLabels` merges. -/
inductive ReachableLabels : List SpeakerLabel → Prop where
  | init : ReachableLabels []
  | merge (old nw : List SpeakerLabel) :
      ReachableLabels old → ReachableLabels (mergeLabelList old nw)

/-! ## Reference-level model of the collections attached to errors

The source attaches the accumulator collections to every MISMATCH error by
reference: `err.speaker_labels = this.speaker_labels` and `err.timestamps
= this.timestamps` (speaker-stream.js lines 114-115 and 248-249), with no
copy.  Array identity matters here, because the two fields are updated in
different ways:

* `this.speaker_labels` is never rebound after construction;
  `handleSpeakerLabels` mutates the one array in place (`pullAllWith`,
  `push.apply`, and in-place `sort`).  An error's `speaker_labels` field
  therefore always shows the current contents of the live label
  collection.
* `this.timestamps` is rebound by `handleResults`
  (`this.timestamps = this.timestamps.concat(...)`): `concat` allocates a
  fresh array and no existing array is ever mutated.  An error's
  `timestamps` field therefore keeps its signaling-time contents forever.

`HeapSim` models exactly this: the contents of the single label array,
the contents of every timestamp array ever allocated, and the index of
the array `this.timestamps` currently points to. -/
structure HeapSim where
  labelArr : List SpeakerLabel
  tsArrs : List (List WordTimestamp)
  tsCur : ℕ
  deriving DecidableEq, Repr

/-- The constructor state: empty label array, one empty timestamp array. -/
def heapInit : HeapSim := { labelArr := [], tsArrs := [[]], tsCur := 0 }

/-- `this.timestamps = this.timestamps.concat(newTs)`: allocates a fresh
array holding the concatenation and rebinds the field to it; every
previously allocated array keeps its contents. -/
def heapAppendTimestamps (h : HeapSim) (nw : List WordTimestamp) : HeapSim :=
  { h with tsArrs := h.tsArrs ++ [(h.tsArrs.getD h.tsCur []) ++ nw]
           tsCur := h.tsArrs.length }

/-- `handleSpeakerLabels` updates the single label array in place. -/
def heapMergeLabels (h : HeapSim) (nw : List SpeakerLabel) : HeapSim :=
  { h with labelArr := mergeLabelList h.labelArr nw }

/-- An accumulator update: either new word timestamps (a final results
update) or new speaker labels. -/
inductive HeapUpdate where
  | words (nw : List WordTimestamp) : HeapUpdate
  | labels (nw : List SpeakerLabel) : HeapUpdate

def heapStep (h : HeapSim) : HeapUpdate → HeapSim
  | .words nw => heapAppendTimestamps h nw
  | .labels nw => heapMergeLabels h nw

def heapRun (h : HeapSim) (us : List HeapUpdate) : HeapSim :=
  us.foldl heapStep h

/-- What an error's `err.timestamps` field shows when the heap is in state
`h`, given that the error captured (at signaling time) a reference to the
timestamp array with index `r`. -/
def errTimestampsView (h : HeapSim) (r : ℕ) : List WordTimestamp :=
  h.tsArrs.getD r []

/-- What an error's `err.speaker_labels` field shows when the heap is in
state `h`: it aliases the single live label array, so it shows that
array's current contents. -/
def errLabelsView (h : HeapSim) : List SpeakerLabel :=
  h.labelArr

/-- The concatenated timestamp lists of one emitted result entry
(`result.alternatives[*].timestamps`; every result `process` builds has
exactly one alternative). -/
def segmentTimestamps (r : SpeakerResult) : List WordTimestamp :=
  (r.alternatives.map fun a => a.timestamps).flatten

/-! Concrete sample data, used to evaluate the theorems below on closed
inputs (three words as in the source's doc comment, with small rational
times). -/

def exTs1 : WordTimestamp := ⟨"Yes", 0, 1⟩

def exTs2 : WordTimestamp := ⟨"there", 1, 2⟩

def exTs3 : WordTimestamp := ⟨"right", 2, 3⟩

def exLb1 : SpeakerLabel := ⟨0, 1, 1, 1, false⟩

def exLb2 : SpeakerLabel := ⟨1, 2, 1, 1, false⟩

def exLb3 : SpeakerLabel := ⟨2, 3, 2, 1, true⟩

/-- A label whose span matches no accumulated timestamp. -/
def exLbFar : SpeakerLabel := ⟨5, 6, 1, 1, false⟩

/-- Same span as `exLb1`, different speaker. -/
def exLb1spk2 : SpeakerLabel := ⟨0, 1, 2, 1, false⟩

/-- A final label over the span of `exTs1`. -/
def exLbFin : SpeakerLabel := ⟨0, 1, 1, 1, true⟩

/-- Three aligned words, speaker change before the last, last label final. -/
def exState : SpeakerState := ⟨[exTs1, exTs2, exTs3], [exLb1, exLb2, exLb3]⟩

/-- A state whose second label has no matching timestamp. -/
def exMismatchState : SpeakerState := ⟨[exTs1], [exLb1, exLbFar]⟩

/-- One aligned word with a final label. -/
def exOneState : SpeakerState := ⟨[exTs1], [exLbFin]⟩

def exOneResult : SpeakerResult := ⟨1, [⟨"Yes ", [exTs1]⟩], true⟩

def exOneOut : SegmentedResult := ⟨[exOneResult], 0⟩

/-- The heap right after merging `[exLb1]`: the signaling-time state of
the aliasing counterexample. -/
def exHeap : HeapSim := heapMergeLabels heapInit [exLb1]

/-! ## The grouping fold computes the maximal same-speaker runs -/

theorem string_join_concat (l : List String) (x : String) :
    String.join (l ++ [x]) = String.join l ++ x := by
  simp [String.join, List.foldl_append]

theorem newResult_eq_runResult (f : Bool) (p : WordTimestamp × SpeakerLabel) :
    newResult f p = runResult f (p, []) := by
  simp [newResult, runResult, runPairs, String.join]

theorem appendWord_runResult (f : Bool) (cur : Run) (p : WordTimestamp × SpeakerLabel) :
    appendWord (runResult f cur) p.1 = runResult f (cur.1, cur.2 ++ [p]) := by
  have h1 : runPairs (cur.1, cur.2 ++ [p]) = runPairs cur ++ [p] := by simp [runPairs]
  simp only [runResult, appendWord, h1, List.map_append, List.map_cons, List.map_nil]
  rw [string_join_concat]

theorem foldl_groupStep_chunkAux (f : Bool) :
    ∀ (ps : List (WordTimestamp × SpeakerLabel)) (done : List SpeakerResult) (cur : Run),
      ps.foldl (groupStep f) (done ++ [runResult f cur]) =
        done ++ (chunkAux cur ps).map (runResult f) := by
  intro ps
  induction ps with
  | nil => intro done cur; simp [chunkAux]
  | cons p ps ih =>
    intro done cur
    rw [List.foldl_cons]
    by_cases h : p.2.speaker = cur.1.2.speaker
    · have hstep : groupStep f (done ++ [runResult f cur]) p =
          done ++ [runResult f (cur.1, cur.2 ++ [p])] := by
        have hspk : (runResult f cur).speaker = cur.1.2.speaker := rfl
        simp only [groupStep, List.getLast?_concat, hspk]
        rw [if_neg (by simp [h]), List.dropLast_concat, appendWord_runResult]
      rw [hstep, ih, chunkAux, if_pos h]
    · have hstep : groupStep f (done ++ [runResult f cur]) p =
          (done ++ [runResult f cur]) ++ [runResult f (p, [])] := by
        have hspk : (runResult f cur).speaker = cur.1.2.speaker := rfl
        simp only [groupStep, List.getLast?_concat, hspk]
        rw [if_pos (fun hc => h hc.symm), newResult_eq_runResult]
      rw [hstep, ih, chunkAux, if_neg h]
      simp

theorem buildResults_eq_chunks (f : Bool) (ps : List (WordTimestamp × SpeakerLabel)) :
    buildResults f ps = (chunkBySpeaker ps).map (runResult f) := by
  cases ps with
  | nil => rfl
  | cons p ps =>
    have h0 : groupStep f [] p = [] ++ [runResult f (p, [])] := by
      rw [groupStep]
      simp [newResult_eq_runResult]
    rw [buildResults, List.foldl_cons, h0, foldl_groupStep_chunkAux]
    rfl

theorem chunkAux_flatten :
    ∀ (ps : List (WordTimestamp × SpeakerLabel)) (cur : Run),
      ((chunkAux cur ps).map runPairs).flatten = runPairs cur ++ ps := by
  intro ps
  induction ps with
  | nil => intro cur; simp [chunkAux]
  | cons p ps ih =>
    intro cur
    rw [chunkAux]
    by_cases h : p.2.speaker = cur.1.2.speaker
    · rw [if_pos h, ih]
      simp [runPairs]
    · rw [if_neg h]
      simp only [List.map_cons, List.flatten_cons, ih]
      simp [runPairs]

theorem chunkBySpeaker_flatten (ps : List (WordTimestamp × SpeakerLabel)) :
    ((chunkBySpeaker ps).map runPairs).flatten = ps := by
  cases ps with
  | nil => rfl
  | cons p ps => rw [chunkBySpeaker, chunkAux_flatten]; rfl

theorem chunkAux_const :
    ∀ (ps : List (WordTimestamp × SpeakerLabel)) (cur : Run),
      (∀ q ∈ cur.2, q.2.speaker = cur.1.2.speaker) →
      ∀ c ∈ chunkAux cur ps, ∀ q ∈ runPairs c, q.2.speaker = c.1.2.speaker := by
  intro ps
  induction ps with
  | nil =>
    intro cur hcur c hc q hq
    simp only [chunkAux, List.mem_singleton] at hc
    subst hc
    simp only [runPairs, List.mem_cons] at hq
    rcases hq with rfl | hq
    · rfl
    · exact hcur q hq
  | cons p ps ih =>
    intro cur hcur c hc q hq
    rw [chunkAux] at hc
    by_cases h : p.2.speaker = cur.1.2.speaker
    · rw [if_pos h] at hc
      refine ih (cur.1, cur.2 ++ [p]) ?_ c hc q hq
      intro r hr
      rcases List.mem_append.mp hr with hr | hr
      · exact hcur r hr
      · rw [List.mem_singleton] at hr
        subst hr
        exact h
    · rw [if_neg h] at hc
      rcases List.mem_cons.mp hc with rfl | hc
      · simp only [runPairs, List.mem_cons] at hq
        rcases hq with rfl | hq
        · rfl
        · exact hcur q hq
      · exact ih (p, []) (by simp) c hc q hq

theorem chunkBySpeaker_const (ps : List (WordTimestamp × SpeakerLabel)) :
    ∀ c ∈ chunkBySpeaker ps, ∀ q ∈ runPairs c, q.2.speaker = c.1.2.speaker := by
  cases ps with
  | nil => simp [chunkBySpeaker]
  | cons p ps => exact chunkAux_const ps (p, []) (by simp)

theorem chunkAux_head :
    ∀ (ps : List (WordTimestamp × SpeakerLabel)) (cur : Run),
      ∃ t rest, chunkAux cur ps = (cur.1, t) :: rest := by
  intro ps
  induction ps with
  | nil => intro cur; exact ⟨cur.2, [], by simp [chunkAux]⟩
  | cons p ps ih =>
    intro cur
    rw [chunkAux]
    by_cases h : p.2.speaker = cur.1.2.speaker
    · rw [if_pos h]; exact ih (cur.1, cur.2 ++ [p])
    · rw [if_neg h]; exact ⟨cur.2, _, rfl⟩

theorem chunkAux_chain' :
    ∀ (ps : List (WordTimestamp × SpeakerLabel)) (cur : Run),
      List.Chain' (fun a b : Run => a.1.2.speaker ≠ b.1.2.speaker) (chunkAux cur ps) := by
  intro ps
  induction ps with
  | nil => intro cur; simp [chunkAux]
  | cons p ps ih =>
    intro cur
    rw [chunkAux]
    by_cases h : p.2.speaker = cur.1.2.speaker
    · rw [if_pos h]; exact ih (cur.1, cur.2 ++ [p])
    · rw [if_neg h]
      rw [List.chain'_cons']
      refine ⟨?_, ih (p, [])⟩
      intro y hy
      obtain ⟨t, rest, ht⟩ := chunkAux_head ps (p, [])
      rw [ht] at hy
      simp at hy
      subst hy
      exact fun hc => h hc.symm

theorem chunkBySpeaker_chain' (ps : List (WordTimestamp × SpeakerLabel)) :
    List.Chain' (fun a b : Run => a.1.2.speaker ≠ b.1.2.speaker) (chunkBySpeaker ps) := by
  cases ps with
  | nil => simp [chunkBySpeaker]
  | cons p ps => exact chunkAux_chain' ps (p, [])

/-! ## Alignment: the mismatch test and the pair sequence of a clean round -/

theorem mem_enumFrom_iff {α : Type _} {x : ℕ × α} {n : ℕ} {l : List α} :
    x ∈ List.enumFrom n l ↔ ∃ j, ∃ hj : j < l.length, x = (n + j, l[j]) := by
  rw [List.mem_iff_getElem]
  constructor
  · rintro ⟨i, hi, rfl⟩
    have hi' : i < l.length := by simpa [List.enumFrom_length] using hi
    exact ⟨i, hi', by rw [List.getElem_enumFrom]⟩
  · rintro ⟨j, hj, rfl⟩
    have hj' : j < (List.enumFrom n l).length := by simpa [List.enumFrom_length] using hj
    exact ⟨j, hj', by rw [List.getElem_enumFrom]⟩

theorem pairAt_isSome_iff {ts : List WordTimestamp} {i : ℕ} {label : SpeakerLabel} :
    (pairAt ts i label).isSome ↔
      ∃ hi : i < ts.length,
        ts[i].«from» = label.«from» ∧ ts[i].«to» = label.«to» := by
  by_cases hi : i < ts.length
  · have hti : ts[i]? = some ts[i] := List.getElem?_eq_getElem hi
    have hred : pairAt ts i label =
        if ts[i].«from» = label.«from» ∧ ts[i].«to» = label.«to»
        then some (ts[i], label) else none := by
      rw [pairAt, hti]
    rw [hred]
    split_ifs with hsp
    · exact iff_of_true (by simp) ⟨hi, hsp⟩
    · refine iff_of_false (by simp) ?_
      rintro ⟨hi2, hsp2⟩
      exact hsp hsp2
  · have hti : ts[i]? = none := List.getElem?_eq_none (le_of_not_lt hi)
    have hred : pairAt ts i label = none := by rw [pairAt, hti]
    rw [hred]
    refine iff_of_false (by simp) ?_
    rintro ⟨hi2, -⟩
    exact hi hi2

theorem pairAt_eq_of_isSome {ts : List WordTimestamp} {i : ℕ} {label : SpeakerLabel}
    (h : (pairAt ts i label).isSome) :
    ∃ hi : i < ts.length, pairAt ts i label = some (ts[i], label) := by
  obtain ⟨hi, h1, h2⟩ := pairAt_isSome_iff.mp h
  refine ⟨hi, ?_⟩
  simp only [pairAt, List.getElem?_eq_getElem hi]
  rw [if_pos ⟨h1, h2⟩]

theorem mismatchErrAt_eq_none_iff {ts : List WordTimestamp} {i : ℕ}
    {label : SpeakerLabel} :
    mismatchErrAt ts i label = none ↔ (pairAt ts i label).isSome := by
  cases h : pairAt ts i label with
  | none => simp [mismatchErrAt, h]
  | some v => simp [mismatchErrAt, h]

theorem mismatchErrAt_eq_some_iff {ts : List WordTimestamp} {i : ℕ}
    {label : SpeakerLabel} {r : SpeakerLabel × Option WordTimestamp} :
    mismatchErrAt ts i label = some r ↔
      ¬ (pairAt ts i label).isSome ∧ r = (label, ts[i]?) := by
  cases h : pairAt ts i label with
  | none => simp [mismatchErrAt, h, eq_comm]
  | some v => simp [mismatchErrAt, h]

theorem findSome?_mismatch_none_iff (ts : List WordTimestamp)
    (ls : List SpeakerLabel) (n : ℕ) :
    ((List.enumFrom n ls).findSome? fun p => mismatchErrAt ts p.1 p.2) = none ↔
      ∀ j (hj : j < ls.length), (pairAt ts (n + j) ls[j]).isSome := by
  rw [List.findSome?_eq_none_iff]
  constructor
  · intro h j hj
    exact mismatchErrAt_eq_none_iff.mp (h (n + j, ls[j]) (mem_enumFrom_iff.mpr ⟨j, hj, rfl⟩))
  · rintro h x hx
    obtain ⟨j, hj, rfl⟩ := mem_enumFrom_iff.mp hx
    exact mismatchErrAt_eq_none_iff.mpr (h j hj)

theorem firstMismatch_none_iff {s : SpeakerState} :
    firstMismatch s = none ↔
      ∀ j (hj : j < s.speaker_labels.length),
        (pairAt s.timestamps j (s.speaker_labels[j])).isSome := by
  have h0 : s.speaker_labels.enum = List.enumFrom 0 s.speaker_labels := rfl
  rw [firstMismatch, h0, findSome?_mismatch_none_iff]
  simp

theorem findSome?_mismatch_some (ts : List WordTimestamp) :
    ∀ (ls : List SpeakerLabel) (n : ℕ) (r : SpeakerLabel × Option WordTimestamp),
      ((List.enumFrom n ls).findSome? fun p => mismatchErrAt ts p.1 p.2) = some r →
      ∃ j, ∃ hj : j < ls.length,
        r = (ls[j], ts[n + j]?) ∧ ¬ (pairAt ts (n + j) ls[j]).isSome ∧
        ∀ k (hk : k < j), (pairAt ts (n + k) (ls.get ⟨k, hk.trans hj⟩)).isSome := by
  intro ls
  induction ls with
  | nil => intro n r h; simp [List.findSome?] at h
  | cons l ls ih =>
    intro n r h
    simp only [List.enumFrom_cons, List.findSome?_cons] at h
    cases he : mismatchErrAt ts n l with
    | some r0 =>
      rw [he] at h
      have hr : r0 = r := by exact Option.some_inj.mp h
      obtain ⟨hns, hr0⟩ := mismatchErrAt_eq_some_iff.mp he
      refine ⟨0, Nat.succ_pos _, ?_, ?_, ?_⟩
      · rw [← hr, hr0]
        simp
      · simpa using hns
      · intro k hk
        exact absurd hk (Nat.not_lt_zero k)
    | none =>
      rw [he] at h
      obtain ⟨j, hj, hrj, hnot, hall⟩ := ih (n + 1) r h
      have hidx : n + 1 + j = n + (j + 1) := by omega
      refine ⟨j + 1, Nat.succ_lt_succ hj, ?_, ?_, ?_⟩
      · rw [hrj, hidx]
        simp
      · rw [hidx] at hnot
        simpa using hnot
      · intro k hk
        cases k with
        | zero => simpa using mismatchErrAt_eq_none_iff.mp he
        | succ k' =>
          have hk' : k' < j := Nat.lt_of_succ_lt_succ hk
          have := hall k' hk'
          have hidx2 : n + 1 + k' = n + (k' + 1) := by omega
          rw [hidx2] at this
          simpa using this

theorem firstMismatch_some {s : SpeakerState} {r : SpeakerLabel × Option WordTimestamp}
    (h : firstMismatch s = some r) :
    ∃ j, ∃ hj : j < s.speaker_labels.length,
      r = (s.speaker_labels[j], s.timestamps[j]?) ∧
      ¬ (pairAt s.timestamps j s.speaker_labels[j]).isSome ∧
      ∀ k (hk : k < j), (pairAt s.timestamps k (s.speaker_labels.get ⟨k, hk.trans hj⟩)).isSome := by
  have h0 : s.speaker_labels.enum = List.enumFrom 0 s.speaker_labels := rfl
  rw [firstMismatch, h0] at h
  obtain ⟨j, hj, hrj, hnot, hall⟩ := findSome?_mismatch_some s.timestamps s.speaker_labels 0 r h
  exact ⟨j, hj, by simpa using hrj, by simpa using hnot, fun k hk => by simpa using hall k hk⟩

theorem goodPairs_aux_snd (ts : List WordTimestamp) :
    ∀ (ls : List SpeakerLabel) (n : ℕ),
      (∀ j (hj : j < ls.length), (pairAt ts (n + j) ls[j]).isSome) →
      ((((List.enumFrom n ls).map fun p => pairAt ts p.1 p.2).filterMap id).map Prod.snd) = ls := by
  intro ls
  induction ls with
  | nil => intro n h; simp
  | cons l ls ih =>
    intro n h
    have h0 : (pairAt ts n l).isSome := by simpa using h 0 (Nat.succ_pos _)
    obtain ⟨hn, he⟩ := pairAt_eq_of_isSome h0
    simp only [List.enumFrom_cons, List.map_cons, List.filterMap_cons, id, he]
    have ih' := ih (n + 1) (fun j hj => by
      have := h (j + 1) (Nat.succ_lt_succ hj)
      have hidx : n + (j + 1) = n + 1 + j := by omega
      rw [hidx] at this
      simpa using this)
    simp only [List.map_cons, ih']

theorem goodPairs_aux_fst (ts : List WordTimestamp) :
    ∀ (ls : List SpeakerLabel) (n : ℕ),
      (∀ j (hj : j < ls.length), (pairAt ts (n + j) ls[j]).isSome) →
      ((((List.enumFrom n ls).map fun p => pairAt ts p.1 p.2).filterMap id).map Prod.fst) =
        (ts.drop n).take ls.length := by
  intro ls
  induction ls with
  | nil => intro n h; simp
  | cons l ls ih =>
    intro n h
    have h0 : (pairAt ts n l).isSome := by simpa using h 0 (Nat.succ_pos _)
    obtain ⟨hn, he⟩ := pairAt_eq_of_isSome h0
    simp only [List.enumFrom_cons, List.map_cons, List.filterMap_cons, id, he]
    have ih' := ih (n + 1) (fun j hj => by
      have := h (j + 1) (Nat.succ_lt_succ hj)
      have hidx : n + (j + 1) = n + 1 + j := by omega
      rw [hidx] at this
      simpa using this)
    rw [List.drop_eq_getElem_cons hn, List.length_cons, List.take_succ_cons]
    simp only [List.map_cons, ih']

theorem goodPairs_snd {s : SpeakerState} (h : firstMismatch s = none) :
    (goodPairs s).map Prod.snd = s.speaker_labels := by
  have h0 : s.speaker_labels.enum = List.enumFrom 0 s.speaker_labels := rfl
  rw [goodPairs, pairsList, h0]
  exact goodPairs_aux_snd s.timestamps s.speaker_labels 0
    (fun j hj => by simpa using firstMismatch_none_iff.mp h j hj)

theorem goodPairs_fst {s : SpeakerState} (h : firstMismatch s = none) :
    (goodPairs s).map Prod.fst = s.timestamps.take s.speaker_labels.length := by
  have h0 : s.speaker_labels.enum = List.enumFrom 0 s.speaker_labels := rfl
  rw [goodPairs, pairsList, h0]
  rw [goodPairs_aux_fst s.timestamps s.speaker_labels 0
    (fun j hj => by simpa using firstMismatch_none_iff.mp h j hj)]
  rw [List.drop_zero]

theorem goodPairs_length {s : SpeakerState} (h : firstMismatch s = none) :
    (goodPairs s).length = s.speaker_labels.length := by
  have := congrArg List.length (goodPairs_snd h)
  simpa [List.length_map] using this

theorem labels_length_le {s : SpeakerState} (h : firstMismatch s = none) :
    s.speaker_labels.length ≤ s.timestamps.length := by
  by_contra hc
  push_neg at hc
  have h2 := firstMismatch_none_iff.mp h s.timestamps.length hc
  obtain ⟨hi, -, -⟩ := pairAt_isSome_iff.mp h2
  exact absurd hi (lt_irrefl _)

/-! ## Round-level reductions of `process` and the final flag -/

theorem process_of_mismatch {s : SpeakerState} {label : SpeakerLabel}
    {t : Option WordTimestamp} (h : firstMismatch s = some (label, t)) :
    process s = (s, some { speaker_label := label, timestamp := t
                           speaker_labels := s.speaker_labels
                           timestamps := s.timestamps }, none) := by
  unfold process
  rw [h]

theorem process_of_clean {s : SpeakerState} (h : firstMismatch s = none) :
    process s = (s, none,
      if (buildResults (isFinal s) (goodPairs s)).length ≠ 0
      then some { results := buildResults (isFinal s) (goodPairs s), result_index := 0 }
      else none) := by
  unfold process
  rw [h]

theorem process_state (s : SpeakerState) : (process s).1 = s := by
  cases h : firstMismatch s with
  | none => rw [process_of_clean h]
  | some r =>
    obtain ⟨label, t⟩ := r
    rw [process_of_mismatch h]

theorem appendWord_final (r : SpeakerResult) (t : WordTimestamp) :
    (appendWord r t).final = r.final := by
  cases r with
  | mk speaker alternatives final =>
    cases alternatives with
    | nil => rfl
    | cons a rest => rfl

theorem final_groupStep (f : Bool) (acc : List SpeakerResult)
    (pair : WordTimestamp × SpeakerLabel) (hacc : ∀ r ∈ acc, r.final = f) :
    ∀ r ∈ groupStep f acc pair, r.final = f := by
  intro r hr
  rw [groupStep] at hr
  cases hlast : acc.getLast? with
  | none =>
    rw [hlast] at hr
    rcases List.mem_append.mp hr with hr | hr
    · exact hacc r hr
    · rw [List.mem_singleton] at hr
      subst hr
      rfl
  | some cr =>
    rw [hlast] at hr
    have hr' : r ∈ (if cr.speaker ≠ pair.2.speaker then acc ++ [newResult f pair]
        else acc.dropLast ++ [appendWord cr pair.1]) := hr
    by_cases h : cr.speaker ≠ pair.2.speaker
    · rw [if_pos h] at hr'
      rcases List.mem_append.mp hr' with hr2 | hr2
      · exact hacc r hr2
      · rw [List.mem_singleton] at hr2
        subst hr2
        rfl
    · rw [if_neg h] at hr'
      rcases List.mem_append.mp hr' with hr2 | hr2
      · exact hacc r (List.mem_of_mem_dropLast hr2)
      · rw [List.mem_singleton] at hr2
        subst hr2
        rw [appendWord_final]
        exact hacc cr (List.mem_of_getLast?_eq_some hlast)

theorem final_buildResults (f : Bool) (ps : List (WordTimestamp × SpeakerLabel)) :
    ∀ r ∈ buildResults f ps, r.final = f := by
  rw [buildResults]
  have haux : ∀ (qs : List (WordTimestamp × SpeakerLabel)) (acc : List SpeakerResult),
      (∀ r ∈ acc, r.final = f) → ∀ r ∈ qs.foldl (groupStep f) acc, r.final = f := by
    intro qs
    induction qs with
    | nil => intro acc hacc; simpa using hacc
    | cons p qs ih =>
      intro acc hacc
      rw [List.foldl_cons]
      exact ih _ (final_groupStep f acc p hacc)
  exact haux ps [] (by simp)

theorem isFinal_iff {s : SpeakerState} :
    isFinal s = true ↔
      s.speaker_labels ≠ [] ∧
        ∃ l, s.speaker_labels.getLast? = some l ∧ l.final = true := by
  cases h : s.speaker_labels.getLast? with
  | none =>
    have h2 : s.speaker_labels = [] := List.getLast?_eq_none_iff.mp h
    simp [isFinal, h, h2]
  | some l =>
    have h2 : s.speaker_labels ≠ [] := by
      intro hc
      rw [hc] at h
      cases h
    simp [isFinal, h, h2]

/-! ## Reachable label collections are sorted -/

theorem reachable_sorted {l : List SpeakerLabel} (h : ReachableLabels l) :
    l.Sorted labelLE := by
  induction h with
  | init => exact List.sorted_nil
  | merge old nw hold ih => exact List.sorted_insertionSort labelLE _

theorem merge_nil_of_sorted {l : List SpeakerLabel} (h : l.Sorted labelLE) :
    mergeLabelList l [] = l := by
  rw [mergeLabelList]
  have hf : (l.filter fun o => ¬ ([] : List SpeakerLabel).any (sameSpan o)) = l := by
    simp
  rw [hf, List.append_nil]
  exact h.insertionSort_eq

theorem heapStep_tsArrs_extends (h : HeapSim) (u : HeapUpdate) :
    ∃ ext, (heapStep h u).tsArrs = h.tsArrs ++ ext := by
  cases u with
  | words nw => exact ⟨_, rfl⟩
  | labels nw => exact ⟨[], by simp [heapStep, heapMergeLabels]⟩

theorem heapRun_tsArrs_extends (us : List HeapUpdate) :
    ∀ h : HeapSim, ∃ ext, (heapRun h us).tsArrs = h.tsArrs ++ ext := by
  induction us with
  | nil => intro h; exact ⟨[], by simp [heapRun]⟩
  | cons u us ih =>
    intro h
    obtain ⟨e1, he1⟩ := heapStep_tsArrs_extends h u
    obtain ⟨e2, he2⟩ := ih (heapStep h u)
    refine ⟨e1 ++ e2, ?_⟩
    have : heapRun h (u :: us) = heapRun (heapStep h u) us := rfl
    rw [this, he2, he1, List.append_assoc]

/-! ## The claims -/

/-- C1: In a round whose alignment fails at some label index (timestamp
absent, or its from/to differ from the label's), `process` signals exactly
one MISMATCH error, for the first mismatching index only, carrying the
offending label and the (possibly absent) timestamp at that index, and
pushes no SegmentedResult.  (The round's single error slot is the model of
the source's `errored` flag, which suppresses every emission after the
first.) -/
theorem claim_c1_mismatch_round (s : SpeakerState) (i : ℕ)
    (hi : i < s.speaker_labels.length)
    (hmis : ¬ (pairAt s.timestamps i s.speaker_labels[i]).isSome) :
    ∃ j, ∃ hj : j < s.speaker_labels.length,
      j ≤ i ∧ ¬ (pairAt s.timestamps j s.speaker_labels[j]).isSome ∧
      (∀ k (hk : k < j), (pairAt s.timestamps k (s.speaker_labels.get ⟨k, hk.trans hj⟩)).isSome) ∧
      (process s).2.1 = some { speaker_label := s.speaker_labels[j]
                               timestamp := s.timestamps[j]?
                               speaker_labels := s.speaker_labels
                               timestamps := s.timestamps } ∧
      (process s).2.2 = none := by
  cases hfm : firstMismatch s with
  | none => exact absurd (firstMismatch_none_iff.mp hfm i hi) hmis
  | some r =>
    obtain ⟨label, t⟩ := r
    obtain ⟨j, hj, hrj, hnot, hall⟩ := firstMismatch_some hfm
    injection hrj with h1 h2
    subst h1
    subst h2
    have hji : j ≤ i := by
      by_contra hc
      push_neg at hc
      exact hmis (hall i hc)
    refine ⟨j, hj, hji, hnot, hall, ?_, ?_⟩
    · rw [process_of_mismatch hfm]
    · rw [process_of_mismatch hfm]

/-- C1 witness: on one timestamp and two labels the second label has no
timestamp, so the round signals the error and emits nothing. -/
theorem claim_c1_witness : (process exMismatchState).2.2 = none := by
  obtain ⟨j, hj, hji, hnot, hall, herr, hout⟩ :=
    claim_c1_mismatch_round exMismatchState 1 (by decide) (by decide)
  exact hout

/-- C2: In a round with no mismatch, the emitted segments are exactly the
maximal same-speaker runs of the pair sequence, in order: the source's
reduce equals mapping `runResult` over `chunkBySpeaker` (so each segment's
transcript is its words each followed by one space, and its timestamp list
is its words' timestamps in order), the runs concatenate back to the pair
sequence, each run's pairs all carry the run's speaker, and adjacent runs
have different speakers — i.e. a segment starts exactly where the speaker
changes from the previous index (or at index 0). -/
theorem claim_c2_segment_boundaries (s : SpeakerState)
    (h : firstMismatch s = none) :
    buildResults (isFinal s) (goodPairs s) =
        (chunkBySpeaker (goodPairs s)).map (runResult (isFinal s)) ∧
      ((chunkBySpeaker (goodPairs s)).map runPairs).flatten = goodPairs s ∧
      (∀ c ∈ chunkBySpeaker (goodPairs s), ∀ q ∈ runPairs c,
        q.2.speaker = c.1.2.speaker) ∧
      List.Chain' (fun a b : Run => a.1.2.speaker ≠ b.1.2.speaker)
        (chunkBySpeaker (goodPairs s)) ∧
      ∀ out, (process s).2.2 = some out →
        out.results = (chunkBySpeaker (goodPairs s)).map (runResult (isFinal s)) := by
  refine ⟨buildResults_eq_chunks _ _, chunkBySpeaker_flatten _,
    chunkBySpeaker_const _, chunkBySpeaker_chain' _, ?_⟩
  intro out hout
  rw [process_of_clean h] at hout
  by_cases hlen : (buildResults (isFinal s) (goodPairs s)).length ≠ 0
  · rw [if_pos hlen] at hout
    obtain rfl := Option.some_inj.mp hout
    exact (buildResults_eq_chunks _ _).symm ▸ rfl
  · rw [if_neg hlen] at hout
    cases hout

/-- C2 witness: the three-word, two-speaker state groups into the two
expected runs. -/
theorem claim_c2_witness :
    buildResults (isFinal exState) (goodPairs exState) =
      (chunkBySpeaker (goodPairs exState)).map (runResult (isFinal exState)) :=
  (claim_c2_segment_boundaries exState (by decide)).1

/-- C3: In a round with no mismatch, the concatenation of the emitted
segments' timestamp lists is exactly the first `label count` accumulated
timestamps — its length equals the label count, and timestamps at or
beyond the label count appear in no segment — and at every index below
the label count the timestamp's from/to equal the label's from/to. -/
theorem claim_c3_alignment_invariant (s : SpeakerState)
    (h : firstMismatch s = none) :
    ((buildResults (isFinal s) (goodPairs s)).map segmentTimestamps).flatten =
        s.timestamps.take s.speaker_labels.length ∧
      (((buildResults (isFinal s) (goodPairs s)).map segmentTimestamps).flatten).length =
        s.speaker_labels.length ∧
      s.speaker_labels.length ≤ s.timestamps.length ∧
      ∀ i (hi : i < s.speaker_labels.length),
        ∃ t, s.timestamps[i]? = some t ∧
          t.«from» = s.speaker_labels[i].«from» ∧
          t.«to» = s.speaker_labels[i].«to» := by
  have hseg : ((buildResults (isFinal s) (goodPairs s)).map segmentTimestamps).flatten =
      s.timestamps.take s.speaker_labels.length := by
    rw [buildResults_eq_chunks]
    have h1 : ((chunkBySpeaker (goodPairs s)).map (runResult (isFinal s))).map
        segmentTimestamps =
        (chunkBySpeaker (goodPairs s)).map fun c => (runPairs c).map Prod.fst := by
      rw [List.map_map]
      refine List.map_congr_left ?_
      intro c hc
      simp [segmentTimestamps, runResult]
    rw [h1]
    have h2 : ((chunkBySpeaker (goodPairs s)).map fun c => (runPairs c).map Prod.fst) =
        ((chunkBySpeaker (goodPairs s)).map runPairs).map (List.map Prod.fst) := by
      rw [List.map_map]
      rfl
    rw [h2, ← List.map_flatten, chunkBySpeaker_flatten, goodPairs_fst h]
  have hle : s.speaker_labels.length ≤ s.timestamps.length := labels_length_le h
  refine ⟨hseg, ?_, hle, ?_⟩
  · rw [hseg, List.length_take]
    exact min_eq_left hle
  · intro i hi
    obtain ⟨hi', h1, h2⟩ := pairAt_isSome_iff.mp (firstMismatch_none_iff.mp h i hi)
    exact ⟨s.timestamps[i], List.getElem?_eq_getElem hi', h1, h2⟩

/-- C3 witness: on the three aligned words the emitted timestamps are
exactly the three accumulated ones. -/
theorem claim_c3_witness :
    ((buildResults (isFinal exState) (goodPairs exState)).map segmentTimestamps).flatten =
      exState.timestamps.take exState.speaker_labels.length :=
  (claim_c3_alignment_invariant exState (by decide)).1

/-- C4: When the update carries a results array and the precondition
checker reports the missing timestamps/speaker-labels capability, the
round signals the CONFIGURATION error and accumulates none of the update's
timestamps: the timestamp collection after `_transform` equals the one
before.  (`noTimestamps` itself is not among the sources; it enters as the
abstract checker parameter `noTs`, modelled from the spec.) -/
theorem claim_c4_configuration_error (noTs : InputData → Bool) (s : SpeakerState)
    (data : InputData) (rs : List ResultEntry)
    (hres : data.results = some rs) (hno : noTs data = true) :
    (transform noTs s data).2.1 = some ConfigError.noTimestampsError ∧
      (transform noTs s data).1.timestamps = s.timestamps := by
  have h1 : handleResults noTs s data = (s, some .noTimestampsError) := by
    rw [handleResults, if_pos hno]
  cases hsl : data.speaker_labels with
  | none => simp [transform, hres, hsl, h1, process_state]
  | some nw =>
    simp [transform, hres, hsl, h1, process_state, handleSpeakerLabels]

/-- C4 witness: an always-failing checker on an empty-results update
leaves the empty timestamp collection empty and signals the error. -/
theorem claim_c4_witness :
    (transform (fun _ => true) ⟨[], []⟩ ⟨some [], none⟩).2.1 =
        some ConfigError.noTimestampsError ∧
      (transform (fun _ => true) ⟨[], []⟩ ⟨some [], none⟩).1.timestamps = [] :=
  claim_c4_configuration_error (fun _ => true) ⟨[], []⟩ ⟨some [], none⟩ [] rfl rfl

/-- C5: `isFinal` is true exactly when the label collection is non-empty
and its last entry has `final = true`; and every segment of an emitted
SegmentedResult carries exactly the round's `isFinal` value as its final
flag. -/
theorem claim_c5_finality (s : SpeakerState) :
    (isFinal s = true ↔
        s.speaker_labels ≠ [] ∧
          ∃ l, s.speaker_labels.getLast? = some l ∧ l.final = true) ∧
      ∀ out, (process s).2.2 = some out → ∀ r ∈ out.results, r.final = isFinal s := by
  refine ⟨isFinal_iff, ?_⟩
  intro out hout r hr
  cases hfm : firstMismatch s with
  | some p =>
    obtain ⟨label, t⟩ := p
    rw [process_of_mismatch hfm] at hout
    cases hout
  | none =>
    rw [process_of_clean hfm] at hout
    by_cases hlen : (buildResults (isFinal s) (goodPairs s)).length ≠ 0
    · rw [if_pos hlen] at hout
      obtain rfl := Option.some_inj.mp hout
      exact final_buildResults (isFinal s) (goodPairs s) r hr
    · rw [if_neg hlen] at hout
      cases hout

/-- C5 witness: the single emitted segment of the one-word final round
carries the round's final flag. -/
theorem claim_c5_witness : exOneResult.final = isFinal exOneState :=
  (claim_c5_finality exOneState).2 exOneOut (by decide) exOneResult (by decide)

/-- C6: a merge removes exactly the existing labels whose (from, to) span
equals the span of some new label and appends all new labels (membership
characterisation, order aside); in particular, merging `[L2]` after
merging `[L1]`, with identical spans and different speakers, leaves
exactly one label for that span, equal to `L2`. -/
theorem claim_c6_revision_replacement (old nw : List SpeakerLabel)
    (L1 L2 : SpeakerLabel) (hf : L1.«from» = L2.«from») (ht : L1.«to» = L2.«to»)
    (hs : L1.speaker ≠ L2.speaker) :
    (∀ l, l ∈ mergeLabelList old nw ↔
        ((l ∈ old ∧ ∀ n ∈ nw, sameSpan l n = false) ∨ l ∈ nw)) ∧
      (mergeLabelList (mergeLabelList old [L1]) [L2]).filter
          (fun l => sameSpan l L2) = [L2] := by
  constructor
  · intro l
    rw [mergeLabelList, (List.perm_insertionSort labelLE _).mem_iff,
      List.mem_append, List.mem_filter]
    simp [List.any_eq_true]
  · rw [← List.perm_singleton]
    have hperm := (List.perm_insertionSort labelLE
      (((mergeLabelList old [L1]).filter fun o => ¬ [L2].any (sameSpan o)) ++ [L2])).filter
      (fun l => sameSpan l L2)
    refine hperm.trans ?_
    rw [List.filter_append, List.filter_filter]
    have hnil : ((mergeLabelList old [L1]).filter fun a =>
        sameSpan a L2 && ¬ [L2].any (sameSpan a)) = [] := by
      rw [List.filter_eq_nil_iff]
      intro a ha
      by_cases hsp : sameSpan a L2 = true <;> simp [hsp]
    have hL2 : ([L2].filter fun l => sameSpan l L2) = [L2] := by
      have : sameSpan L2 L2 = true := by simp [sameSpan]
      simp [this]
    rw [hnil, hL2]
    rfl

/-- C6 witness: two labels over the same span with different speakers:
after both merges the span holds exactly the second label. -/
theorem claim_c6_witness :
    (mergeLabelList (mergeLabelList [] [exLb1]) [exLb1spk2]).filter
        (fun l => sameSpan l exLb1spk2) = [exLb1spk2] :=
  (claim_c6_revision_replacement [] [] exLb1 exLb1spk2 rfl rfl (by decide)).2

/-- C7: at stream close exactly one of three outcomes occurs: equal counts
signal nothing; unequal counts with an empty label collection and a
non-empty timestamp collection signal the MISMATCH whose message says
speaker labeling was never enabled; any other inequality signals the
MISMATCH whose message reports both counts. -/
theorem claim_c7_flush_trichotomy (s : SpeakerState) :
    (s.timestamps.length = s.speaker_labels.length → flush s = .ok) ∧
      (s.timestamps.length ≠ s.speaker_labels.length →
        s.speaker_labels = [] → s.timestamps ≠ [] →
        flush s = .errNoLabels s.speaker_labels s.timestamps) ∧
      (s.timestamps.length ≠ s.speaker_labels.length →
        ¬ (s.speaker_labels = [] ∧ s.timestamps ≠ []) →
        flush s = .errCounts s.timestamps.length s.speaker_labels.length
          s.speaker_labels s.timestamps) := by
  refine ⟨?_, ?_, ?_⟩
  · intro h
    rw [flush, if_neg (by simp [h])]
  · intro h h1 h2
    rw [flush, if_pos h, if_pos ?_]
    refine ⟨?_, by simp [h1]⟩
    simpa [List.length_eq_zero] using h2
  · intro h h2
    rw [flush, if_pos h, if_neg ?_]
    rintro ⟨a, b⟩
    exact h2 ⟨List.length_eq_zero.mp b, by simpa [List.length_eq_zero] using a⟩

/-- C7 witness: one timestamp, no labels: the "never enabled" error. -/
theorem claim_c7_witness :
    flush ⟨[exTs1], []⟩ = FlushOutcome.errNoLabels [] [exTs1] :=
  (claim_c7_flush_trichotomy ⟨[exTs1], []⟩).2.1 (by decide) rfl (by decide)

/-- C8 counterexample: the claim that a signaled MISMATCH error carries
snapshots unchanged by later accumulator updates is false.  At the
signaling-time heap `exHeap` (whose label contents `[exLb1]` do signal a
MISMATCH as a stream state with no timestamps) the error's label field
shows `[exLb1]`; after one more label update it shows the revised
collection, because the error aliases the live, in-place-mutated label
array. -/
theorem claim_c8_counterexample :
    (process ⟨[], [exLb1]⟩).2.1.isSome = true ∧
      errLabelsView exHeap = [exLb1] ∧
      errLabelsView (heapRun exHeap [HeapUpdate.labels [exLb1spk2]]) ≠
        errLabelsView exHeap := by
  refine ⟨by decide, by decide, by decide⟩

/-- C8 (amended): a signaled MISMATCH error carries the live collections
by reference, not snapshots.  The timestamp array reference captured at
signaling time keeps its contents under every later update sequence
(appends rebind `this.timestamps` to a fresh array and mutate none), while
the error's label field goes on showing the single live label array's
current contents, so later in-place merges are visible through the
error. -/
theorem claim_c8_error_aliasing (h : HeapSim) (us : List HeapUpdate) (r : ℕ)
    (hr : r < h.tsArrs.length) :
    errTimestampsView (heapRun h us) r = errTimestampsView h r ∧
      errLabelsView (heapRun h us) = (heapRun h us).labelArr := by
  refine ⟨?_, rfl⟩
  obtain ⟨ext, hext⟩ := heapRun_tsArrs_extends us h
  rw [errTimestampsView, errTimestampsView, hext]
  rw [List.getD_eq_getElem?_getD, List.getD_eq_getElem?_getD, List.getElem?_append]
  rw [if_pos hr]

/-- C8 witness: the initial timestamp array still reads empty after an
append, which allocated a fresh array instead of mutating it. -/
theorem claim_c8_witness :
    errTimestampsView (heapRun heapInit [HeapUpdate.words [exTs1]]) 0 =
      errTimestampsView heapInit 0 :=
  (claim_c8_error_aliasing heapInit [HeapUpdate.words [exTs1]] 0 (by decide)).1

/-- C9: merging an empty label update leaves every label collection
reachable by a sequence of merges unchanged in content and order: nothing
is removed or appended, and the stable re-sort is the identity on the
already-sorted collection. -/
theorem claim_c9_empty_merge_id (l : List SpeakerLabel) (h : ReachableLabels l) :
    mergeLabelList l [] = l :=
  merge_nil_of_sorted (reachable_sorted h)

/-- C9 witness: a two-label reachable collection survives an empty merge
unchanged. -/
theorem claim_c9_witness :
    mergeLabelList (mergeLabelList [] [exLb3, exLb1]) [] =
      mergeLabelList [] [exLb3, exLb1] :=
  claim_c9_empty_merge_id _ (ReachableLabels.merge _ _ ReachableLabels.init)

/-- C10: the segmentation pass never changes the accumulator: `process`
performs no assignment to `this.timestamps` or `this.speaker_labels`, so
the state after a `process` invocation — in particular in a round that
signals a MISMATCH — equals the state before it, and what it emits is a
function of that state alone. -/
theorem claim_c10_process_pure (s : SpeakerState) : (process s).1 = s :=
  process_state s

end SpeakerStream
